import Mathlib

/-!
# Verification of the `got` CLI orchestrator

Shallow embedding of `cmd/got/main.go` from the PokeGuys/got repository.
The orchestrator collects URL candidates from piped stdin, a batch file and
positional arguments, parses repeated `-H "Key: Value"` flags into a header
list, normalizes each candidate URL (defaulting a missing scheme to https)
and submits the downloads one at a time to the external engine, failing fast
on the first error.

External collaborators (the OS, the `got` engine, Go's `net/url` parser and
the terminal progress bar) are modelled as components of an explicit
environment record; the orchestrator's own control flow is translated
function by function from the source.  Each run produces a trace of
observable events (dispatches, engine calls, completions, header-list
population, directory creation attempts) together with the run's result.
-/

namespace GotCli

/-- Orchestrator errors are carried as plain strings, as in the Go source
(`error` values whose only observable content here is their message). -/
abbrev Err := String

/-! ## Go string helpers used by the source -/

/-- Go `unicode.IsSpace` restricted to the Latin-1 range, which is the whole
whitespace alphabet relevant to the claims: space, tab, newline, vertical
tab, form feed, carriage return, next line (U+0085), non-breaking space
(U+00A0). -/
def goIsSpace (c : Char) : Bool :=
  c = ' ' || c = '\t' || c = '\n' || c = Char.ofNat 11 || c = Char.ofNat 12 ||
  c = '\r' || c = Char.ofNat 0x85 || c = Char.ofNat 0xA0

/-- Drop the longest leading run of whitespace characters. -/
def trimLeftChars : List Char → List Char
  | [] => []
  | c :: cs => if goIsSpace c then trimLeftChars cs else c :: cs

/-- Go `strings.TrimSpace s`: drops leading and trailing whitespace. -/
def goTrimSpace (s : String) : String :=
  ⟨(trimLeftChars (trimLeftChars s.data).reverse).reverse⟩

/-- Helper for `splitFirstColon`: split a character list at the first `':'`,
returning the parts before and after it, or `none` when no colon occurs. -/
def splitFirstColonChars : List Char → Option (List Char × List Char)
  | [] => none
  | c :: cs =>
    if c = ':' then some ([], cs)
    else
      match splitFirstColonChars cs with
      | none => none
      | some p => some (c :: p.1, p.2)

/-- Go `strings.SplitN(h, ":", 2)` reduced to its two observable outcomes:
`none` when the result has length 1 (no colon in `h`), otherwise the pair of
the substring before the first colon and the remainder after it. -/
def splitFirstColon (s : String) : Option (String × String) :=
  match splitFirstColonChars s.data with
  | none => none
  | some p => some (⟨p.1⟩, ⟨p.2⟩)

/-! ## Data model -/

/-- Structure `got.GotHeader`: one `Key: Value` request header. -/
structure GotHeader where
  Key : String
  Value : String
deriving DecidableEq, Repr

/-- The header accumulation loop of `run` (main.go lines 146–156): for each
raw flag string, split on the first colon; a string without a colon aborts
with the `malformatted header` error; otherwise one entry is appended whose
key is the part before the colon and whose value is the remainder passed
through `strings.TrimSpace`. -/
def parseHeaders : List String → Except Err (List GotHeader)
  | [] => .ok []
  | h :: rest =>
    match splitFirstColon h with
    | none => .error ("malformatted header " ++ h)
    | some kv =>
      match parseHeaders rest with
      | .error e => .error e
      | .ok tl => .ok ({ Key := kv.1, Value := goTrimSpace kv.2 } :: tl)

/-- The scheme/opaque-rest view of Go's `net/url.URL` that `getURL` touches:
it reads and writes `u.Scheme` and otherwise treats the parsed URL as opaque
data that `u.String()` re-serializes. -/
structure GoURL where
  Scheme : String
  Rest : String
deriving DecidableEq, Repr

/-- Structure `got.Download` as built by `download` (main.go lines 197–205): the
request record handed to the engine's `g.Do`. -/
structure DownloadRequest where
  URL : String
  Dir : String
  Dest : String
  Header : List GotHeader
  Interval : Nat
  ChunkSize : Nat
  Concurrency : Nat
deriving DecidableEq, Repr

/-- The CLI flag values and positional arguments of one invocation
(`c.String`, `c.Uint64`, `c.Uint`, `c.StringSlice`, `c.Args().Slice()`).
An empty string means the flag is unset; `header = []` models a nil header
slice. -/
structure CliFlags where
  output : String := ""
  dir : String := ""
  file : String := ""
  size : Nat := 0
  concurrency : Nat := 0
  header : List String := []
  agent : String := ""
  args : List String := []
deriving DecidableEq, Repr

/-- The external world as the orchestrator observes it during one run:
whether stdin is piped (`info.Mode()&ModeNamedPipe > 0 || info.Size() > 0`)
and its lines, the outcome of opening/reading the batch file, whether the
destination directory already exists, the outcome of `os.MkdirAll` (whose
error the source discards), the engine's verdict per submitted request
(`g.Do`), and Go's `net/url` parser and serializer. -/
structure Env where
  stdinPiped : Bool
  stdinLines : List String
  fileLines : String → Except Err (List String)
  dirExists : Bool
  mkdirResult : Except Err Unit
  engine : DownloadRequest → Except Err Unit
  parse : String → Except Err GoURL
  urlToString : GoURL → String

/-- Observable events of a run, in the order they happen. -/
inductive Event where
  /-- `os.MkdirAll` was invoked; the payload records whether it succeeded
  (the source never inspects this result). -/
  | mkdirAttempted (succeeded : Bool)
  /-- `download` was invoked with this raw candidate URL. -/
  | dispatched (url : String)
  /-- `g.Do` was invoked with this request. -/
  | engineCall (req : DownloadRequest)
  /-- the `✔ url` completion marker was printed. -/
  | completed (url : String)
  /-- the global `HeaderSlice` was populated with these parsed headers. -/
  | headersPopulated (hs : List GotHeader)
deriving DecidableEq, Repr

/-- Function `getURL` (main.go lines 208–220): parse the candidate, propagate a parse
error unchanged, default an empty scheme to `https`, and return the
re-serialized string. -/
def getURL (env : Env) (URL : String) : Except Err String :=
  match env.parse URL with
  | .error e => .error e
  | .ok u => .ok (env.urlToString (if u.Scheme = "" then { u with Scheme := "https" } else u))

/-- The request literal of `download`: destination, directory, headers,
fixed 150 ms interval, chunk size and concurrency from the flags. -/
def mkRequest (c : CliFlags) (hs : List GotHeader) (url : String) : DownloadRequest :=
  { URL := url, Dir := c.dir, Dest := c.output, Header := hs,
    Interval := 150, ChunkSize := c.size, Concurrency := c.concurrency }

/-- Function `download` (main.go lines 192–206).  The global `HeaderSlice` read at
line 201 is passed explicitly as `hs`.  The trace records the dispatch and,
when normalization succeeds, the engine call. -/
def download (env : Env) (c : CliFlags) (hs : List GotHeader) (url : String) :
    List Event × Except Err Unit :=
  match getURL env url with
  | .error e => ([Event.dispatched url], .error e)
  | .ok u =>
    let req := mkRequest c hs u
    ([Event.dispatched url, Event.engineCall req], env.engine req)

/-- The positional-argument loop of `run` (main.go lines 158–167): dispatch
each URL in order, stop at the first error, print the completion marker
after each success. -/
def dispatchList (env : Env) (c : CliFlags) (hs : List GotHeader) :
    List String → List Event × Except Err Unit
  | [] => ([], .ok ())
  | url :: rest =>
    match download env c hs url with
    | (evs, .error e) => (evs, .error e)
    | (evs, .ok _) =>
      let next := dispatchList env c hs rest
      (evs ++ Event.completed url :: next.1, next.2)

/-- Function `multiDownload` (main.go lines 172–190): scan lines in order, trim each
line, skip lines that are empty after trimming, dispatch the rest, stop at
the first error.  `hs` is the global `HeaderSlice` at call time. -/
def multiDownload (env : Env) (c : CliFlags) (hs : List GotHeader) :
    List String → List Event × Except Err Unit
  | [] => ([], .ok ())
  | line :: rest =>
    let url := goTrimSpace line
    if url = "" then multiDownload env c hs rest
    else
      match download env c hs url with
      | (evs, .error e) => (evs, .error e)
      | (evs, .ok _) =>
        let next := multiDownload env c hs rest
        (evs ++ Event.completed url :: next.1, next.2)

/-- The directory block of `run` (main.go lines 114–119): when the `--dir`
flag is set and the directory does not exist, `os.MkdirAll` is invoked; the
source never inspects its returned error, so only the attempt (with the
OS's verdict as payload) is observable. -/
def mkdirEvents (env : Env) (c : CliFlags) : List Event :=
  if c.dir = "" then []
  else if env.dirExists then []
  else [Event.mkdirAttempted (match env.mkdirResult with | .ok _ => true | .error _ => false)]

/-- The header block's observable effect: the global `HeaderSlice` is
populated exactly when the header flag slice is non-nil (main.go line 146). -/
def headerEvents (c : CliFlags) (hs : List GotHeader) : List Event :=
  if c.header = [] then [] else [Event.headersPopulated hs]

/-- Function `run` after its directory block: the piped-stdin downloads (main.go
lines 127–131), the batch-file downloads (134–144), header-flag parsing
into the global `HeaderSlice` (146–156, so the stdin and batch downloads
above run with the still-nil header slice), then the positional-argument
downloads (159–167).  Each phase stops the run at its first error. -/
def runTail (env : Env) (c : CliFlags) : List Event × Except Err Unit :=
  match (if env.stdinPiped then multiDownload env c [] env.stdinLines else ([], .ok ())) with
  | (evs1, .error e) => (evs1, .error e)
  | (evs1, .ok _) =>
    match (if c.file = "" then ([], .ok ())
           else
             match env.fileLines c.file with
             | .error e => ([], .error e)
             | .ok lines => multiDownload env c [] lines) with
    | (evs2, .error e) => (evs1 ++ evs2, .error e)
    | (evs2, .ok _) =>
      match parseHeaders c.header with
      | .error e => (evs1 ++ evs2, .error e)
      | .ok hs =>
        let argStep := dispatchList env c hs c.args
        (evs1 ++ evs2 ++ headerEvents c hs ++ argStep.1, argStep.2)

/-- Function `run` (main.go lines 97–170), with `os.Stdin.Stat` assumed to succeed
and the user-agent assignment (a write to a global the claims never read)
omitted.  Control flow in source order: the directory block first, then the
download phases of `runTail`. -/
def run (env : Env) (c : CliFlags) : List Event × Except Err Unit :=
  let t := runTail env c
  (mkdirEvents env c ++ t.1, t.2)

/-! ## Trace projections -/

/-- The raw candidate URLs passed to `download`, in dispatch order. -/
def dispatchedOf (evs : List Event) : List String :=
  evs.filterMap fun e =>
    match e with
    | .dispatched u => some u
    | _ => none

/-- The requests submitted to the engine, in submission order. -/
def engineCallsOf (evs : List Event) : List DownloadRequest :=
  evs.filterMap fun e =>
    match e with
    | .engineCall r => some r
    | _ => none

/-- The candidates `multiDownload` yields from a line sequence: each line
trimmed, lines that are empty after trimming skipped, order preserved. -/
def candidates : List String → List String
  | [] => []
  | line :: rest =>
    let url := goTrimSpace line
    if url = "" then candidates rest else url :: candidates rest

/-- The candidates yielded by the piped-stdin phase: the trimmed non-empty
stdin lines when stdin is piped, nothing otherwise. -/
def stdinCands (env : Env) : List String :=
  if env.stdinPiped then candidates env.stdinLines else []

/-- The candidates yielded by the batch-file phase, given the lines `flines`
the opened file contains. -/
def fileCands (c : CliFlags) (flines : List String) : List String :=
  if c.file = "" then [] else candidates flines

/-- The aggregated dispatch sequence of a run, each candidate paired with
the global `HeaderSlice` contents at its dispatch time: stdin and batch
candidates run before the header flags are parsed (so with `[]`), the
positional arguments run after (so with the parsed list `hs`). -/
def aggregatedPairs (env : Env) (c : CliFlags) (flines : List String)
    (hs : List GotHeader) : List (String × List GotHeader) :=
  (stdinCands env).map (fun u => (u, ([] : List GotHeader))) ++
  ((fileCands c flines).map (fun u => (u, ([] : List GotHeader))) ++
    c.args.map (fun u => (u, hs)))

/-- Sequential dispatch of explicit candidate/header pairs: the common
shape of the three download phases, used to state ordering and fail-fast
properties of the whole run. -/
def dispatchPairs (env : Env) (c : CliFlags) :
    List (String × List GotHeader) → List Event × Except Err Unit
  | [] => ([], .ok ())
  | p :: rest =>
    match download env c p.2 p.1 with
    | (evs, .error e) => (evs, .error e)
    | (evs, .ok _) =>
      let next := dispatchPairs env c rest
      (evs ++ Event.completed p.1 :: next.1, next.2)

/-! ## Progress bridge (main.go lines 100–107) -/

/-- The terminal progress indicator (the external `progressbar` package) as
the bridge drives it: `ChangeMax` sets the upper bound, `Add` advances the
position by its argument. -/
structure ProgressBar where
  max : Int
  position : Int
deriving DecidableEq, Repr

/-- Method `p.ChangeMax(m)`: set the indicator's upper bound. -/
def ProgressBar.ChangeMax (p : ProgressBar) (m : Int) : ProgressBar :=
  { p with max := m }

/-- Method `p.Add(n)`: advance the indicator's position by `n`. -/
def ProgressBar.Add (p : ProgressBar) (n : Int) : ProgressBar :=
  { p with position := p.position + n }

/-- Modelled from the spec: the engine's in-progress download object (the
`got.Download` accessors `TotalSize()` and `Size()`, whose code lives at the
repository root, outside `src/`) offers "accessor methods … returning
'bytes transferred so far' and 'total size' at the moment the callback
fires".  One value of this structure is the pair of readings the callback
observes on one invocation: `size` is the cumulative byte count transferred
so far, `totalSize` the known total. -/
structure DownloadProgress where
  totalSize : Nat
  size : Nat
deriving DecidableEq, Repr

/-- The progress callback installed by `run` (main.go lines 104–107):
`p.ChangeMax(int(d.TotalSize())); p.Add(int(d.Size()))`. -/
def progressFunc (p : ProgressBar) (d : DownloadProgress) : ProgressBar :=
  (p.ChangeMax (d.totalSize : Int)).Add (d.size : Int)

/-- The indicator state after a sequence of callback invocations during a
single download. -/
def runProgress (p : ProgressBar) (ds : List DownloadProgress) : ProgressBar :=
  ds.foldl progressFunc p

/-! ## Cancellation controller (main.go lines 26–37) -/

/-- The run context's cancellation state. `transitions` counts the
active-to-cancelled transitions that have happened. -/
structure Ctx where
  cancelled : Bool
  transitions : Nat
deriving DecidableEq, Repr

/-- Go `context.CancelFunc`: the first call transitions the context to
cancelled; any further call finds it already cancelled and changes
nothing. -/
def Ctx.cancel (ctx : Ctx) : Ctx :=
  if ctx.cancelled then ctx else { cancelled := true, transitions := ctx.transitions + 1 }

/-- The whole-process view of the signal listener: the shared context, the
listener's registration on the signal channel, the number of abort errors
logged, and whether `log.Fatal` has terminated the process. -/
structure SigState where
  ctx : Ctx
  listening : Bool
  abortLogs : Nat
  exited : Bool
deriving DecidableEq, Repr

/-- The listener goroutine's body after it receives one signal (main.go
lines 33–36): `cancel()`, `signal.Stop(interruptChan)`, then
`log.Fatal(got.ErrDownloadAborted)` — one abort log line and process
termination. -/
def listenerBody (s : SigState) : SigState :=
  let s1 : SigState := { s with ctx := s.ctx.cancel }
  let s2 : SigState := { s1 with listening := false }
  { s2 with abortLogs := s2.abortLogs + 1, exited := true }

/-- Process start (main.go lines 26–32): active context, listener blocked
on the signal channel, nothing logged. -/
def initSigState : SigState :=
  { ctx := { cancelled := false, transitions := 0 }, listening := true,
    abortLogs := 0, exited := false }

/-- Deliver `n` operating-system interrupt signals, one after another.  The
listener consumes the first delivery and runs its body to completion
(ending in process termination); once the process has exited — or, at
intermediate states, once `signal.Stop` has unregistered the channel —
later deliveries have no observable effect. -/
def deliverSignals : Nat → SigState → SigState
  | 0, s => s
  | n + 1, s =>
    deliverSignals n (if s.exited then s else if s.listening then listenerBody s else s)

/-! ## Claim-specific auxiliary definitions -/

/-- The header value as the claim's wording predicts it: the remainder
after the first colon with only its leading whitespace removed (the source
instead applies `strings.TrimSpace`, which also removes trailing
whitespace). -/
def leadingTrimmed (s : String) : String :=
  ⟨trimLeftChars s.data⟩

/-! ## Helper lemmas -/

instance exceptDecEq {ε α : Type} [DecidableEq ε] [DecidableEq α] :
    DecidableEq (Except ε α) := fun a b =>
  match a, b with
  | .ok x, .ok y =>
    if h : x = y then isTrue (by rw [h])
    else isFalse (fun hc => h (Except.ok.inj hc))
  | .error x, .error y =>
    if h : x = y then isTrue (by rw [h])
    else isFalse (fun hc => h (Except.error.inj hc))
  | .ok _, .error _ => isFalse (fun hc => Except.noConfusion hc)
  | .error _, .ok _ => isFalse (fun hc => Except.noConfusion hc)

lemma splitFirstColonChars_append (ks vs : List Char) (h : ':' ∉ ks) :
    splitFirstColonChars (ks ++ ':' :: vs) = some (ks, vs) := by
  induction ks with
  | nil => simp [splitFirstColonChars]
  | cons c cs ih =>
    rw [List.mem_cons] at h
    push_neg at h
    simp only [List.cons_append, splitFirstColonChars]
    rw [if_neg (fun hc => h.1 hc.symm)]
    simp only [List.append_eq]
    rw [ih h.2]

lemma splitFirstColonChars_none (l : List Char) (h : ':' ∉ l) :
    splitFirstColonChars l = none := by
  induction l with
  | nil => rfl
  | cons c cs ih =>
    rw [List.mem_cons] at h
    push_neg at h
    simp only [splitFirstColonChars]
    rw [if_neg (fun hc => h.1 hc.symm), ih h.2]

lemma string_data_append (a b : String) : (a ++ b).data = a.data ++ b.data := rfl

lemma splitFirstColon_append (k v : String) (h : ':' ∉ k.data) :
    splitFirstColon (k ++ ":" ++ v) = some (k, v) := by
  have hd : (k ++ ":" ++ v).data = k.data ++ ':' :: v.data := by
    rw [string_data_append, string_data_append]
    simp
  rw [splitFirstColon, hd, splitFirstColonChars_append _ _ h]

lemma splitFirstColon_none (s : String) (h : ':' ∉ s.data) :
    splitFirstColon s = none := by
  rw [splitFirstColon, splitFirstColonChars_none _ h]

lemma dispatchedOf_append (a b : List Event) :
    dispatchedOf (a ++ b) = dispatchedOf a ++ dispatchedOf b :=
  List.filterMap_append ..

lemma engineCallsOf_append (a b : List Event) :
    engineCallsOf (a ++ b) = engineCallsOf a ++ engineCallsOf b :=
  List.filterMap_append ..

lemma dispatchedOf_mkdirEvents (env : Env) (c : CliFlags) :
    dispatchedOf (mkdirEvents env c) = [] := by
  unfold mkdirEvents
  split <;> try rfl
  split <;> rfl

lemma engineCallsOf_mkdirEvents (env : Env) (c : CliFlags) :
    engineCallsOf (mkdirEvents env c) = [] := by
  unfold mkdirEvents
  split <;> try rfl
  split <;> rfl

lemma dispatchedOf_headerEvents (c : CliFlags) (hs : List GotHeader) :
    dispatchedOf (headerEvents c hs) = [] := by
  unfold headerEvents
  split <;> rfl

lemma engineCallsOf_headerEvents (c : CliFlags) (hs : List GotHeader) :
    engineCallsOf (headerEvents c hs) = [] := by
  unfold headerEvents
  split <;> rfl

lemma dispatchedOf_download (env : Env) (c : CliFlags) (hs : List GotHeader) (url : String) :
    dispatchedOf (download env c hs url).1 = [url] := by
  unfold download
  split <;> rfl

lemma dispatchedOf_cons_completed (u : String) (l : List Event) :
    dispatchedOf (Event.completed u :: l) = dispatchedOf l := rfl

lemma engineCallsOf_cons_completed (u : String) (l : List Event) :
    engineCallsOf (Event.completed u :: l) = engineCallsOf l := rfl

lemma multiDownload_eq (env : Env) (c : CliFlags) (hs : List GotHeader)
    (lines : List String) :
    multiDownload env c hs lines = dispatchList env c hs (candidates lines) := by
  induction lines with
  | nil => rfl
  | cons line rest ih =>
    simp only [multiDownload, candidates]
    by_cases h : goTrimSpace line = ""
    · simp only [if_pos h]
      exact ih
    · simp only [if_neg h, dispatchList]
      rcases hd : download env c hs (goTrimSpace line) with ⟨evs, res⟩
      cases res with
      | error e => simp [hd]
      | ok u => simp [hd, ih]

lemma dispatchList_eq_pairs (env : Env) (c : CliFlags) (hs : List GotHeader)
    (urls : List String) :
    dispatchList env c hs urls = dispatchPairs env c (urls.map (fun u => (u, hs))) := by
  induction urls with
  | nil => rfl
  | cons url rest ih =>
    simp only [dispatchList, List.map_cons, dispatchPairs]
    rcases hd : download env c hs url with ⟨evs, res⟩
    cases res with
    | error e => simp [hd]
    | ok u => simp [hd, ih]

lemma dispatchPairs_append_err (env : Env) (c : CliFlags)
    (pre rest : List (String × List GotHeader)) (e : Err)
    (he : (dispatchPairs env c pre).2 = .error e) :
    dispatchPairs env c (pre ++ rest) = dispatchPairs env c pre := by
  induction pre with
  | nil => simp [dispatchPairs] at he
  | cons q qs ih =>
    rcases hd : download env c q.2 q.1 with ⟨evs, res⟩
    cases res with
    | error e2 => simp [dispatchPairs, hd]
    | ok u =>
      simp only [dispatchPairs, hd] at he ⊢
      simp only [List.append_eq]
      rw [ih he]

lemma dispatchPairs_append_ok (env : Env) (c : CliFlags)
    (pre rest : List (String × List GotHeader))
    (hok : (dispatchPairs env c pre).2 = .ok ()) :
    (dispatchPairs env c (pre ++ rest)).2 = (dispatchPairs env c rest).2 ∧
    dispatchedOf (dispatchPairs env c (pre ++ rest)).1 =
      dispatchedOf (dispatchPairs env c pre).1 ++
      dispatchedOf (dispatchPairs env c rest).1 := by
  induction pre with
  | nil => simp [dispatchPairs, dispatchedOf]
  | cons q qs ih =>
    rcases hd : download env c q.2 q.1 with ⟨evs, res⟩
    cases res with
    | error e => simp [dispatchPairs, hd] at hok
    | ok u =>
      simp only [dispatchPairs, hd] at hok ⊢
      simp only [List.append_eq]
      obtain ⟨h1, h2⟩ := ih hok
      refine ⟨h1, ?_⟩
      rw [dispatchedOf_append, dispatchedOf_append, dispatchedOf_cons_completed,
        dispatchedOf_cons_completed, h2, List.append_assoc]

lemma dispatchPairs_all_ok (env : Env) (c : CliFlags)
    (l : List (String × List GotHeader))
    (hok : ∀ q ∈ l, (download env c q.2 q.1).2 = .ok ()) :
    (dispatchPairs env c l).2 = .ok () ∧
    dispatchedOf (dispatchPairs env c l).1 = l.map Prod.fst := by
  induction l with
  | nil => simp [dispatchPairs, dispatchedOf]
  | cons q qs ih =>
    have hq := hok q (by simp)
    rcases hd : download env c q.2 q.1 with ⟨evs, res⟩
    rw [hd] at hq
    cases res with
    | error e => exact absurd hq (by simp)
    | ok u =>
      obtain ⟨h1, h2⟩ := ih (fun p hp => hok p (List.mem_cons_of_mem _ hp))
      have hevs : dispatchedOf evs = [q.1] := by
        have := dispatchedOf_download env c q.2 q.1
        rw [hd] at this
        exact this
      simp only [dispatchPairs, hd, List.map_cons]
      refine ⟨h1, ?_⟩
      rw [dispatchedOf_append, hevs, dispatchedOf_cons_completed, h2,
        List.singleton_append]

lemma dispatchPairs_fail_head (env : Env) (c : CliFlags)
    (p : String × List GotHeader) (post : List (String × List GotHeader))
    (e : Err) (nu : String)
    (hurl : getURL env p.1 = .ok nu)
    (heng : env.engine (mkRequest c p.2 nu) = .error e) :
    (dispatchPairs env c (p :: post)).2 = .error e ∧
    dispatchedOf (dispatchPairs env c (p :: post)).1 = [p.1] := by
  have hd : download env c p.2 p.1 =
      ([Event.dispatched p.1, Event.engineCall (mkRequest c p.2 nu)], .error e) := by
    unfold download
    rw [hurl]
    simp [heng]
  simp [dispatchPairs, hd, dispatchedOf]

lemma runTail_eq (env : Env) (c : CliFlags) (flines : List String) (hs : List GotHeader)
    (hfile : c.file ≠ "" → env.fileLines c.file = .ok flines)
    (hhdr : parseHeaders c.header = .ok hs) :
    (runTail env c).2 = (dispatchPairs env c (aggregatedPairs env c flines hs)).2 ∧
    dispatchedOf (runTail env c).1 =
      dispatchedOf (dispatchPairs env c (aggregatedPairs env c flines hs)).1 := by
  have hA : (if env.stdinPiped then multiDownload env c [] env.stdinLines
      else (([] : List Event), Except.ok ())) =
      dispatchPairs env c ((stdinCands env).map (fun u => (u, ([] : List GotHeader)))) := by
    unfold stdinCands
    by_cases hp : env.stdinPiped
    · rw [if_pos hp, if_pos hp, multiDownload_eq, dispatchList_eq_pairs]
    · rw [if_neg hp, if_neg hp]
      rfl
  have hB : (if c.file = "" then (([] : List Event), Except.ok ())
      else
        match env.fileLines c.file with
        | .error e => ([], .error e)
        | .ok lines => multiDownload env c [] lines) =
      dispatchPairs env c ((fileCands c flines).map (fun u => (u, ([] : List GotHeader)))) := by
    unfold fileCands
    by_cases hf : c.file = ""
    · rw [if_pos hf, if_pos hf]
      rfl
    · rw [if_neg hf, if_neg hf, hfile hf]
      show multiDownload env c [] flines = _
      rw [multiDownload_eq, dispatchList_eq_pairs]
  unfold runTail aggregatedPairs
  rw [hA, hB, hhdr]
  rcases hDA : dispatchPairs env c
      ((stdinCands env).map (fun u => (u, ([] : List GotHeader)))) with ⟨evs1, res1⟩
  cases res1 with
  | error e =>
    have herr := dispatchPairs_append_err env c
      ((stdinCands env).map (fun u => (u, ([] : List GotHeader))))
      ((fileCands c flines).map (fun u => (u, ([] : List GotHeader))) ++
        c.args.map (fun u => (u, hs))) e (by rw [hDA])
    refine ⟨?_, ?_⟩
    · show Except.error e = _
      rw [herr, hDA]
    · show dispatchedOf evs1 = _
      rw [herr, hDA]
  | ok u =>
    have hok1 : (dispatchPairs env c
        ((stdinCands env).map (fun u => (u, ([] : List GotHeader))))).2 = .ok () := by
      rw [hDA]
    have hOK1 := dispatchPairs_append_ok env c
      ((stdinCands env).map (fun u => (u, ([] : List GotHeader))))
      ((fileCands c flines).map (fun u => (u, ([] : List GotHeader))) ++
        c.args.map (fun u => (u, hs))) hok1
    rcases hDB : dispatchPairs env c
        ((fileCands c flines).map (fun u => (u, ([] : List GotHeader)))) with ⟨evs2, res2⟩
    cases res2 with
    | error e =>
      have herr := dispatchPairs_append_err env c
        ((fileCands c flines).map (fun u => (u, ([] : List GotHeader))))
        (c.args.map (fun u => (u, hs))) e (by rw [hDB])
      refine ⟨?_, ?_⟩
      · show Except.error e = _
        rw [hOK1.1, herr, hDB]
      · show dispatchedOf (evs1 ++ evs2) = _
        rw [hOK1.2, herr, hDB, hDA, dispatchedOf_append]
    | ok u2 =>
      have hok2 : (dispatchPairs env c
          ((fileCands c flines).map (fun u => (u, ([] : List GotHeader))))).2 = .ok () := by
        rw [hDB]
      have hOK2 := dispatchPairs_append_ok env c
        ((fileCands c flines).map (fun u => (u, ([] : List GotHeader))))
        (c.args.map (fun u => (u, hs))) hok2
      refine ⟨?_, ?_⟩
      · show (dispatchList env c hs c.args).2 = _
        rw [dispatchList_eq_pairs, hOK1.1, hOK2.1]
      · show dispatchedOf (evs1 ++ evs2 ++ headerEvents c hs ++
          (dispatchList env c hs c.args).1) = _
        rw [dispatchList_eq_pairs, hOK1.2, hOK2.2, hDA, hDB]
        simp [dispatchedOf_append, dispatchedOf_headerEvents]

lemma run_eq_dispatchPairs (env : Env) (c : CliFlags) (flines : List String)
    (hs : List GotHeader)
    (hfile : c.file ≠ "" → env.fileLines c.file = .ok flines)
    (hhdr : parseHeaders c.header = .ok hs) :
    (run env c).2 = (dispatchPairs env c (aggregatedPairs env c flines hs)).2 ∧
    dispatchedOf (run env c).1 =
      dispatchedOf (dispatchPairs env c (aggregatedPairs env c flines hs)).1 := by
  obtain ⟨h2, h1⟩ := runTail_eq env c flines hs hfile hhdr
  constructor
  · exact h2
  · show dispatchedOf (mkdirEvents env c ++ (runTail env c).1) = _
    rw [dispatchedOf_append, dispatchedOf_mkdirEvents, List.nil_append, h1]

lemma download_mkdir_irrel (env : Env) (r : Except Err Unit) (c : CliFlags)
    (hs : List GotHeader) (url : String) :
    download { env with mkdirResult := r } c hs url = download env c hs url := rfl

lemma multiDownload_mkdir_irrel (env : Env) (r : Except Err Unit) (c : CliFlags)
    (hs : List GotHeader) (l : List String) :
    multiDownload { env with mkdirResult := r } c hs l = multiDownload env c hs l := by
  induction l with
  | nil => rfl
  | cons line rest ih =>
    simp only [multiDownload]
    rw [download_mkdir_irrel, ih]

lemma dispatchList_mkdir_irrel (env : Env) (r : Except Err Unit) (c : CliFlags)
    (hs : List GotHeader) (urls : List String) :
    dispatchList { env with mkdirResult := r } c hs urls = dispatchList env c hs urls := by
  induction urls with
  | nil => rfl
  | cons url rest ih =>
    simp only [dispatchList]
    rw [download_mkdir_irrel, ih]

lemma runTail_mkdir_irrel (env : Env) (r : Except Err Unit) (c : CliFlags) :
    runTail { env with mkdirResult := r } c = runTail env c := by
  simp only [runTail, multiDownload_mkdir_irrel, dispatchList_mkdir_irrel]

lemma deliverSignals_exited (n : Nat) (s : SigState) (h : s.exited = true) :
    deliverSignals n s = s := by
  induction n with
  | zero => rfl
  | succ m ih =>
    simp only [deliverSignals, h]
    exact ih

/-! ## Claims -/

/-- C4, counterexample: at the header flag `"K: v "` — a string containing a
colon — the source produces the value `"v"`, because `strings.TrimSpace`
also removes the trailing blank, whereas the claim's "remainder with leading
whitespace trimmed" is `"v "`; the two differ. -/
theorem headerAccumulator_counterexample :
    parseHeaders ["K: v "] = .ok [{ Key := "K", Value := "v" }] ∧
    leadingTrimmed " v " = "v " ∧
    ({ Key := "K", Value := "v" } : GotHeader) ≠ { Key := "K", Value := leadingTrimmed " v " } := by
  refine ⟨rfl, rfl, ?_⟩
  decide

/-- C4, amended: for every header flag string containing at least one colon
(written `k ++ ":" ++ v` with no colon in `k`, so the split is at the first
colon), the accumulator contributes exactly one `GotHeader` whose key is the
substring before the first colon and whose value is the remainder with
leading and trailing whitespace trimmed (`strings.TrimSpace`); every string
with zero colons fails with the `malformatted header` error naming the
offending string. -/
theorem headerAccumulator_spec :
    (∀ (k v : String) (rest : List String), ':' ∉ k.data →
      parseHeaders ((k ++ ":" ++ v) :: rest) =
        match parseHeaders rest with
        | .error e => .error e
        | .ok tl => .ok ({ Key := k, Value := goTrimSpace v } :: tl)) ∧
    (∀ (h : String) (rest : List String), ':' ∉ h.data →
      parseHeaders (h :: rest) = .error ("malformatted header " ++ h)) := by
  constructor
  · intro k v rest hk
    simp only [parseHeaders, splitFirstColon_append k v hk]
  · intro h rest hh
    simp only [parseHeaders, splitFirstColon_none h hh]

/-- Runs C4's amended theorem on the spec's own examples. -/
theorem headerAccumulator_spec_witness :
    parseHeaders ["Authorization: Bearer abc"] =
      .ok [{ Key := "Authorization", Value := "Bearer abc" }] ∧
    parseHeaders ["BadHeader"] = .error "malformatted header BadHeader" := by
  constructor
  · have h := headerAccumulator_spec.1 "Authorization" " Bearer abc" [] (by decide)
    exact h.trans (by rfl)
  · have h := headerAccumulator_spec.2 "BadHeader" [] (by decide)
    exact h.trans (by rfl)

/-- C8: for every line sequence read from piped stdin or a batch file — and
any engine behaviour — `multiDownload` behaves exactly like plain sequential
dispatch of `candidates`: each line whitespace-trimmed, lines empty after
trimming skipped, one candidate per non-empty line, in file order.  The
second conjunct is the claim's example: the scanner lines of `"a\n\nb\n"`
yield exactly the candidates `a` and `b`. -/
theorem multiDownload_yields_trimmed_nonempty :
    (∀ (env : Env) (c : CliFlags) (hs : List GotHeader) (lines : List String),
      multiDownload env c hs lines = dispatchList env c hs (candidates lines)) ∧
    candidates ["a", "", "b"] = ["a", "b"] :=
  ⟨multiDownload_eq, rfl⟩

/-- C5: `getURL` on a candidate that parses with an empty scheme returns the
re-serialization of the parsed URL with its scheme set to `https`; on a
candidate with an explicit scheme it returns the re-serialization of the
parsed URL unchanged; a candidate that fails to parse propagates the parse
error unchanged. -/
theorem getURL_scheme_default (env : Env) (s : String) :
    (∀ u : GoURL, env.parse s = .ok u →
      (u.Scheme = "" →
        getURL env s = .ok (env.urlToString { u with Scheme := "https" })) ∧
      (u.Scheme ≠ "" → getURL env s = .ok (env.urlToString u))) ∧
    (∀ e : Err, env.parse s = .error e → getURL env s = .error e) := by
  constructor
  · intro u hu
    constructor
    · intro h0
      simp [getURL, hu, h0]
    · intro h0
      simp [getURL, hu, h0]
  · intro e he
    simp [getURL, he]

/-- A concrete stand-in for `net/url` used to run the normalizer theorem on
the spec's examples: scheme-less candidates parse with an empty scheme,
`http://x.com/a` parses with scheme `http`; serialization joins scheme and
remainder with a colon. -/
def demoParseEnv : Env :=
  { stdinPiped := false
    stdinLines := []
    fileLines := fun _ => .ok []
    dirExists := true
    mkdirResult := .ok ()
    engine := fun _ => .ok ()
    parse := fun s =>
      if s = "http://x.com/a" then .ok { Scheme := "http", Rest := "//x.com/a" }
      else .ok { Scheme := "", Rest := "//" ++ s }
    urlToString := fun u =>
      if u.Scheme = "" then u.Rest else u.Scheme ++ ":" ++ u.Rest }

/-- Runs C5's theorem on the spec's examples. -/
theorem getURL_scheme_default_witness :
    getURL demoParseEnv "example.com/file.zip" = .ok "https://example.com/file.zip" ∧
    getURL demoParseEnv "http://x.com/a" = .ok "http://x.com/a" := by
  constructor
  · have h := ((getURL_scheme_default demoParseEnv "example.com/file.zip").1
      { Scheme := "", Rest := "//example.com/file.zip" } (by rfl)).1 rfl
    exact h.trans (by rfl)
  · have h := ((getURL_scheme_default demoParseEnv "http://x.com/a").1
      { Scheme := "http", Rest := "//x.com/a" } (by rfl)).2 (by decide)
    exact h.trans (by rfl)

/-- C3: in a run whose batch file opens with lines `flines` and whose header
flags parse, if every aggregated candidate downloads successfully then the
dispatched candidates are exactly the trimmed non-empty stdin lines, then
the trimmed non-empty batch-file lines, then the positional arguments — in
that order, order preserved within each source. -/
theorem run_dispatch_order (env : Env) (c : CliFlags) (flines : List String)
    (hs : List GotHeader)
    (hfile : c.file ≠ "" → env.fileLines c.file = .ok flines)
    (hhdr : parseHeaders c.header = .ok hs)
    (hok : ∀ q ∈ aggregatedPairs env c flines hs,
      (download env c q.2 q.1).2 = .ok ()) :
    (run env c).2 = .ok () ∧
    dispatchedOf (run env c).1 = stdinCands env ++ (fileCands c flines ++ c.args) := by
  obtain ⟨h2, h1⟩ := run_eq_dispatchPairs env c flines hs hfile hhdr
  obtain ⟨g2, g1⟩ := dispatchPairs_all_ok env c (aggregatedPairs env c flines hs) hok
  refine ⟨h2.trans g2, ?_⟩
  rw [h1, g1]
  unfold aggregatedPairs
  simp only [List.map_append, List.map_map]
  rw [show (Prod.fst ∘ fun u : String => (u, ([] : List GotHeader))) = id from rfl,
    show (Prod.fst ∘ fun u : String => (u, hs)) = id from rfl,
    List.map_id, List.map_id, List.map_id]

/-- The environment of the spec's ordering example: piped stdin lines
`a, b`, a batch file `list.txt` with the single line `c`, positional
argument `d`; the engine accepts everything. -/
def demoEnvOrder : Env :=
  { stdinPiped := true
    stdinLines := ["a", "b"]
    fileLines := fun p =>
      if p = "list.txt" then .ok ["c"] else .error "open: no such file"
    dirExists := true
    mkdirResult := .ok ()
    engine := fun _ => .ok ()
    parse := fun s => .ok { Scheme := "x", Rest := s }
    urlToString := fun u => u.Scheme ++ ":" ++ u.Rest }

/-- The flags of the spec's ordering example. -/
def demoFlagsOrder : CliFlags := { file := "list.txt", args := ["d"] }

/-- Runs C3's theorem on the spec's example: the dispatched order is exactly
`a, b, c, d`. -/
theorem run_dispatch_order_witness :
    dispatchedOf (run demoEnvOrder demoFlagsOrder).1 = ["a", "b", "c", "d"] := by
  have h := run_dispatch_order demoEnvOrder demoFlagsOrder ["c"] []
    (fun _ => rfl) rfl (by decide)
  exact h.2.trans (by rfl)

/-- C1: if, in the aggregated dispatch sequence of a run, every candidate
before position `k` (the length of `pre`) downloads successfully and the
engine's submission for the candidate at position `k` fails with error `e`
(its normalization having succeeded), then the run returns exactly `e`,
unmodified, and the dispatched candidates are exactly those up to and
including position `k` — no later candidate is dispatched. -/
theorem run_fail_fast (env : Env) (c : CliFlags) (flines : List String)
    (hs : List GotHeader) (pre post : List (String × List GotHeader))
    (p : String × List GotHeader) (e : Err) (nu : String)
    (hfile : c.file ≠ "" → env.fileLines c.file = .ok flines)
    (hhdr : parseHeaders c.header = .ok hs)
    (hagg : aggregatedPairs env c flines hs = pre ++ p :: post)
    (hpre : ∀ q ∈ pre, (download env c q.2 q.1).2 = .ok ())
    (hurl : getURL env p.1 = .ok nu)
    (heng : env.engine (mkRequest c p.2 nu) = .error e) :
    (run env c).2 = .error e ∧
    dispatchedOf (run env c).1 = pre.map Prod.fst ++ [p.1] := by
  obtain ⟨h2, h1⟩ := run_eq_dispatchPairs env c flines hs hfile hhdr
  rw [hagg] at h2 h1
  obtain ⟨pok, pdisp⟩ := dispatchPairs_all_ok env c pre hpre
  obtain ⟨a2, a1⟩ := dispatchPairs_append_ok env c pre (p :: post) pok
  obtain ⟨f2, f1⟩ := dispatchPairs_fail_head env c p post e nu hurl heng
  refine ⟨?_, ?_⟩
  · rw [h2, a2, f2]
  · rw [h1, a1, pdisp, f1]

/-- A run with three positional arguments in which the engine rejects the
second one: used to run C1's theorem on the spec's fail-fast example. -/
def demoEnvFail : Env :=
  { stdinPiped := false
    stdinLines := []
    fileLines := fun _ => .error "unused"
    dirExists := true
    mkdirResult := .ok ()
    engine := fun req =>
      if req.URL = "x:bad" then .error "connection refused" else .ok ()
    parse := fun s => .ok { Scheme := "x", Rest := s }
    urlToString := fun u => u.Scheme ++ ":" ++ u.Rest }

/-- The flags of the fail-fast example: URLs 1, 2, 3 with URL 2 failing. -/
def demoFlagsFail : CliFlags := { args := ["good", "bad", "never"] }

/-- Runs C1's theorem on the fail-fast example: the run's error is the
engine's error for URL 2, and URL 3 is never dispatched. -/
theorem run_fail_fast_witness :
    (run demoEnvFail demoFlagsFail).2 = .error "connection refused" ∧
    dispatchedOf (run demoEnvFail demoFlagsFail).1 = ["good", "bad"] := by
  have h := run_fail_fast demoEnvFail demoFlagsFail [] []
    [("good", [])] [("never", [])] ("bad", []) "connection refused" "x:bad"
    (fun hf => absurd rfl hf) rfl (by rfl) (by decide) (by rfl) (by rfl)
  exact ⟨h.1, h.2.trans (by rfl)⟩

/-- C10: positional arguments reach normalization and dispatch exactly as
given — no trimming, no skipping.  In a run with no piped stdin and no batch
file whose single positional argument is the arbitrary string `a`
(including the empty string or a whitespace-padded string), the dispatched
candidate list is exactly `[a]`, verbatim, and — when `a` parses — the
engine receives one request for `a`'s normalization. -/
theorem run_args_verbatim (env : Env) (c : CliFlags) (hs : List GotHeader)
    (a : String) (u : GoURL)
    (hstdin : env.stdinPiped = false)
    (hfile : c.file = "")
    (hhdr : parseHeaders c.header = .ok hs)
    (hargs : c.args = [a])
    (hp : env.parse a = .ok u) :
    dispatchedOf (run env c).1 = [a] ∧
    engineCallsOf (run env c).1 =
      [mkRequest c hs (env.urlToString
        (if u.Scheme = "" then { u with Scheme := "https" } else u))] := by
  have hget : getURL env a =
      .ok (env.urlToString (if u.Scheme = "" then { u with Scheme := "https" } else u)) := by
    unfold getURL
    rw [hp]
  have hdl : download env c hs a =
      ([Event.dispatched a, Event.engineCall (mkRequest c hs (env.urlToString
          (if u.Scheme = "" then { u with Scheme := "https" } else u)))],
        env.engine (mkRequest c hs (env.urlToString
          (if u.Scheme = "" then { u with Scheme := "https" } else u)))) := by
    unfold download
    rw [hget]
  have hrt : runTail env c =
      (headerEvents c hs ++ (dispatchList env c hs [a]).1,
        (dispatchList env c hs [a]).2) := by
    unfold runTail
    rw [hstdin, hargs, hhdr, if_pos hfile]
    simp
  have hproj : dispatchedOf (dispatchList env c hs [a]).1 = [a] ∧
      engineCallsOf (dispatchList env c hs [a]).1 =
        [mkRequest c hs (env.urlToString
          (if u.Scheme = "" then { u with Scheme := "https" } else u))] := by
    simp only [dispatchList]
    rw [hdl]
    cases env.engine (mkRequest c hs (env.urlToString
        (if u.Scheme = "" then { u with Scheme := "https" } else u))) with
    | error er => exact ⟨rfl, rfl⟩
    | ok v => exact ⟨rfl, rfl⟩
  constructor
  · show dispatchedOf (mkdirEvents env c ++ (runTail env c).1) = _
    rw [dispatchedOf_append, dispatchedOf_mkdirEvents, List.nil_append, hrt]
    show dispatchedOf (headerEvents c hs ++ (dispatchList env c hs [a]).1) = _
    rw [dispatchedOf_append, dispatchedOf_headerEvents, List.nil_append, hproj.1]
  · show engineCallsOf (mkdirEvents env c ++ (runTail env c).1) = _
    rw [engineCallsOf_append, engineCallsOf_mkdirEvents, List.nil_append, hrt]
    show engineCallsOf (headerEvents c hs ++ (dispatchList env c hs [a]).1) = _
    rw [engineCallsOf_append, engineCallsOf_headerEvents, List.nil_append, hproj.2]

/-- A run whose only candidate is the empty-string positional argument. -/
def demoEnvEmptyArg : Env :=
  { stdinPiped := false
    stdinLines := []
    fileLines := fun _ => .error "unused"
    dirExists := true
    mkdirResult := .ok ()
    engine := fun _ => .ok ()
    parse := fun s => .ok { Scheme := "", Rest := s }
    urlToString := fun u => u.Scheme ++ ":" ++ u.Rest }

/-- Flags with a single empty positional argument. -/
def demoFlagsEmptyArg : CliFlags := { args := [""] }

/-- Runs C10's theorem at the empty-string argument: it is dispatched
verbatim (not skipped) and the engine is called with its normalization. -/
theorem run_args_verbatim_witness :
    dispatchedOf (run demoEnvEmptyArg demoFlagsEmptyArg).1 = [""] ∧
    engineCallsOf (run demoEnvEmptyArg demoFlagsEmptyArg).1 =
      [{ URL := "https:", Dir := "", Dest := "", Header := [], Interval := 150,
          ChunkSize := 0, Concurrency := 0 }] := by
  have h := run_args_verbatim demoEnvEmptyArg demoFlagsEmptyArg [] ""
    { Scheme := "", Rest := "" } rfl rfl rfl rfl rfl
  exact ⟨h.1, h.2.trans (by rfl)⟩

/-- A run with one piped stdin line and one header flag, the input on which
C2 fails: the source parses header flags only after the stdin (and batch)
downloads have been dispatched. -/
def demoEnvHeaderTiming : Env :=
  { stdinPiped := true
    stdinLines := ["u"]
    fileLines := fun _ => .error "unused"
    dirExists := true
    mkdirResult := .ok ()
    engine := fun _ => .ok ()
    parse := fun s => .ok { Scheme := "x", Rest := s }
    urlToString := fun u => u.Scheme ++ ":" ++ u.Rest }

/-- Flags with one header flag and no positional arguments. -/
def demoFlagsHeaderTiming : CliFlags := { header := ["K: V"] }

/-- C2, code bug: with header flag `-H "K: V"` and piped stdin line `u`, the
engine call for `u` carries the empty header list and precedes the
population of the shared header list — the header flags parse to
`[{K, V}]`, but that list is built only after the stdin download was
dispatched, contradicting the claim that every dispatched download carries
the complete header list populated before any dispatch. -/
theorem run_headers_populated_after_stdin_dispatch :
    run demoEnvHeaderTiming demoFlagsHeaderTiming =
      ([Event.dispatched "u",
        Event.engineCall
          { URL := "x:u", Dir := "", Dest := "", Header := [],
            Interval := 150, ChunkSize := 0, Concurrency := 0 },
        Event.completed "u",
        Event.headersPopulated [{ Key := "K", Value := "V" }]], .ok ()) ∧
    parseHeaders demoFlagsHeaderTiming.header = .ok [{ Key := "K", Value := "V" }] ∧
    ([] : List GotHeader) ≠ [{ Key := "K", Value := "V" }] := by
  refine ⟨rfl, rfl, ?_⟩
  decide

/-- A run in which the destination directory is absent and `os.MkdirAll`
fails, while one positional argument is supplied. -/
def demoEnvMkdirFail : Env :=
  { stdinPiped := false
    stdinLines := []
    fileLines := fun _ => .error "unused"
    dirExists := false
    mkdirResult := .error "mkdir downloads: permission denied"
    engine := fun _ => .ok ()
    parse := fun s => .ok { Scheme := "x", Rest := s }
    urlToString := fun u => u.Scheme ++ ":" ++ u.Rest }

/-- Flags with the directory flag set and one positional argument. -/
def demoFlagsMkdirFail : CliFlags := { dir := "downloads", args := ["u"] }

/-- C7, counterexample: with `--dir downloads` set, the directory absent and
directory creation failing, the run does not stop with an error — it
returns success and still dispatches the positional argument, contradicting
the claim that directory-creation failure is terminal. -/
theorem run_mkdir_failure_counterexample :
    demoFlagsMkdirFail.dir ≠ "" ∧
    demoEnvMkdirFail.mkdirResult = .error "mkdir downloads: permission denied" ∧
    (run demoEnvMkdirFail demoFlagsMkdirFail).2 = .ok () ∧
    dispatchedOf (run demoEnvMkdirFail demoFlagsMkdirFail).1 = ["u"] := by
  refine ⟨by decide, rfl, rfl, rfl⟩

/-- C7, amended: the orchestrator discards the result of the directory
creation attempt: a run in which `os.MkdirAll` fails has the same result,
the same dispatched candidates and the same engine calls as the same run
with any other creation outcome; the failure is never surfaced as an error
and later downloads are still dispatched. -/
theorem run_ignores_mkdir_result (env : Env) (c : CliFlags) (r : Except Err Unit) :
    ((run { env with mkdirResult := r } c).2 = (run env c).2) ∧
    dispatchedOf (run { env with mkdirResult := r } c).1 =
      dispatchedOf (run env c).1 ∧
    engineCallsOf (run { env with mkdirResult := r } c).1 =
      engineCallsOf (run env c).1 := by
  have ht : runTail { env with mkdirResult := r } c = runTail env c :=
    runTail_mkdir_irrel env r c
  refine ⟨?_, ?_, ?_⟩
  · show (runTail { env with mkdirResult := r } c).2 = (runTail env c).2
    rw [ht]
  · show dispatchedOf (mkdirEvents { env with mkdirResult := r } c ++
        (runTail { env with mkdirResult := r } c).1) =
      dispatchedOf (mkdirEvents env c ++ (runTail env c).1)
    rw [dispatchedOf_append, dispatchedOf_append, dispatchedOf_mkdirEvents,
      dispatchedOf_mkdirEvents, ht]
  · show engineCallsOf (mkdirEvents { env with mkdirResult := r } c ++
        (runTail { env with mkdirResult := r } c).1) =
      engineCallsOf (mkdirEvents env c ++ (runTail env c).1)
    rw [engineCallsOf_append, engineCallsOf_append, engineCallsOf_mkdirEvents,
      engineCallsOf_mkdirEvents, ht]

/-- C6, code bug: the progress callback adds the *cumulative* transferred
byte count to the indicator's position on every call.  After two callbacks
reporting (total 10, transferred 5) and then (total 10, transferred 7), the
indicator's upper bound is 10 but its position is 12 = 5 + 7, whereas the
claim requires the displayed position to equal the last reported cumulative
count, 7. -/
theorem progressFunc_adds_cumulative_sizes :
    runProgress { max := 0, position := 0 }
      [{ totalSize := 10, size := 5 }, { totalSize := 10, size := 7 }] =
      { max := 10, position := 12 } ∧
    ¬ (runProgress { max := 0, position := 0 }
      [{ totalSize := 10, size := 5 }, { totalSize := 10, size := 7 }]).position = 7 := by
  refine ⟨rfl, ?_⟩
  decide

/-- C9: however many interrupt signals the operating system delivers (at
least one), the final state shows exactly one active-to-cancelled context
transition and exactly one abort log line; and the context's cancel
operation is irreversible and idempotent — it always leaves the context
cancelled, and a second cancel attempt is a no-op. -/
theorem signal_cancellation_once (n : Nat) (hn : 1 ≤ n) :
    ((deliverSignals n initSigState).ctx.cancelled = true ∧
      (deliverSignals n initSigState).ctx.transitions = 1 ∧
      (deliverSignals n initSigState).abortLogs = 1) ∧
    (∀ ctx : Ctx, ctx.cancel.cancelled = true ∧ ctx.cancel.cancel = ctx.cancel) := by
  constructor
  · obtain ⟨m, rfl⟩ : ∃ m, n = m + 1 := ⟨n - 1, (Nat.succ_pred_eq_of_pos hn).symm⟩
    have hstep : deliverSignals (m + 1) initSigState =
        deliverSignals m (listenerBody initSigState) := rfl
    rw [hstep, deliverSignals_exited m (listenerBody initSigState) rfl]
    exact ⟨rfl, rfl, rfl⟩
  · intro ctx
    rcases ctx with ⟨b, t⟩
    cases b <;> simp [Ctx.cancel]

/-- Runs C9's theorem at three delivered signals. -/
theorem signal_cancellation_once_witness :
    (deliverSignals 3 initSigState).ctx.transitions = 1 ∧
    (deliverSignals 3 initSigState).abortLogs = 1 :=
  ⟨(signal_cancellation_once 3 (by decide)).1.2.1,
    (signal_cancellation_once 3 (by decide)).1.2.2⟩

end GotCli
